import Mathlib

namespace Passman

/-!
Verification of the passman core against its specification.

Shallow embedding conventions used throughout this file:
* Go strings are modelled as `List Char` (one entry per rune); where Go takes
  the byte length `len(s)` of a string we use an explicit UTF-8 byte-length
  function.
* The OS cryptographic random source is modelled as a stream `rng : Nat → Nat`
  of draws; the Go call `rand.Int(rand.Reader, n)`, which returns a uniform
  value in `[0, n)`, is embedded as `rng i % n` for the i-th draw, so that
  quantifying over `rng` quantifies over every possible sequence of in-range
  draws.
* Go `int` values that the code compares against bounds are modelled as `Int`.
* Fallible Go functions returning `(T, error)` are modelled as
  `Except String T`.
-/

/-! ## PIN generator (internal/generator/pin.go) -/

/-- The digit buffer built by `PINGenerator.Generate`: position `i` receives
the byte `'0' + d` for a uniform draw `d` in `[0, 10)` (the i-th draw of the
stream). -/
def pinDigits (n : Nat) (rng : Nat → Nat) : List Char :=
  (List.range n).map (fun i => Char.ofNat (48 + rng i % 10))

/-- `PINGenerator.Validate`: the configured length must lie in `[1, 50]`. -/
def pinValidate (len : Int) : Except String Unit :=
  if len ≤ 0 then .error "PIN length must be positive"
  else if len > 50 then .error "PIN length too long (max 50)"
  else .ok ()

/-- `PINGenerator.Generate`: validate, then draw `len` digits.  (The Go
context-cancellation check between draws and the final buffer zeroing have no
observable effect on the returned value and are not modelled.) -/
def pinGenerate (len : Int) (rng : Nat → Nat) : Except String (List Char) :=
  match pinValidate len with
  | .error e => .error e
  | .ok _ => .ok (pinDigits len.toNat rng)

/-- The formatting loop body of `PINGenerator.GenerateFormatted`: for each
index/digit pair, the separator is written first whenever `i > 0` and
`i % groupSize == 0`, then the digit. -/
def insertSep (pin sep : List Char) (g : Nat) : List Char :=
  (pin.enum.map (fun p => (if 0 < p.1 ∧ p.1 % g = 0 then sep else []) ++ [p.2])).flatten

/-- `PINGenerator.GenerateFormatted`: generate an unformatted PIN, then return
it unchanged when `separator == ""`, `groupSize <= 0` or
`groupSize >= len(pin)`, and otherwise run the formatting loop. -/
def pinGenerateFormatted (len : Int) (rng : Nat → Nat) (separator : List Char)
    (groupSize : Int) : Except String (List Char) :=
  match pinGenerate len rng with
  | .error e => .error e
  | .ok pin =>
    if separator = [] ∨ groupSize ≤ 0 ∨ groupSize ≥ (pin.length : Int) then .ok pin
    else .ok (insertSep pin separator groupSize.toNat)

/-- Stated from the spec's words, for comparison with `insertSep`: the
unformatted PIN with one copy of the separator inserted immediately before
each digit position that is a positive multiple of `g`. -/
def specInsertBeforeMultiples (pin sep : List Char) (g : Nat) : List Char :=
  (pin.enum.map (fun p => (if 0 < p.1 ∧ g ∣ p.1 then sep else []) ++ [p.2])).flatten

/-- The shape `"####-####"`: four ASCII digits, one dash, four ASCII digits. -/
def shape4Dash4 : List Char → Bool
  | [c1, c2, c3, c4, c5, c6, c7, c8, c9] =>
    c1.isDigit && c2.isDigit && c3.isDigit && c4.isDigit && (c5 == '-') &&
    c6.isDigit && c7.isDigit && c8.isDigit && c9.isDigit
  | _ => false

/-! ## Random password generator (internal/generator/random.go)

`Config` carries the fields of the Go struct that `RandomGenerator` reads
(`WordCount` and `Separator` belong to the other generators and are not
modelled). -/

inductive CharSet where
  | Lowercase
  | Uppercase
  | Numbers
  | Symbols
  | Ambiguous
deriving DecidableEq

structure Config where
  Length : Int
  CharSets : List CharSet
  ExcludeChar : List Char
deriving DecidableEq

/-- The fixed alphabet constant of each character class (the `switch` bodies
of `buildIndividualCharsets` / `buildCharset`). -/
def charSetChars : CharSet → List Char
  | .Lowercase => "abcdefghijklmnopqrstuvwxyz".toList
  | .Uppercase => "ABCDEFGHIJKLMNOPQRSTUVWXYZ".toList
  | .Numbers => "0123456789".toList
  | .Symbols => "!@#$%^&*()_+-=[]\x7b\x7d|;:,.<>?".toList
  | .Ambiguous => "0O1lI".toList

/-- `removeChars`: drop every character of `exclude` from `charset`. -/
def removeChars (charset exclude : List Char) : List Char :=
  charset.filter (fun c => !exclude.contains c)

/-- The per-class alphabet after applying the exclusion string (one loop
iteration of `buildIndividualCharsets`). -/
def classAlphabet (cfg : Config) (cs : CharSet) : List Char :=
  if cfg.ExcludeChar ≠ [] then removeChars (charSetChars cs) cfg.ExcludeChar
  else charSetChars cs

/-- `RandomGenerator.buildIndividualCharsets`: one filtered alphabet per
selected class, keeping only the non-empty ones. -/
def buildIndividualCharsets (cfg : Config) : List (List Char) :=
  (cfg.CharSets.map (classAlphabet cfg)).filter (fun l => 0 < l.length)

/-- `RandomGenerator.buildCharset`: the concatenated union alphabet with the
exclusions removed. -/
def buildCharset (cfg : Config) : List Char :=
  let result := (cfg.CharSets.map charSetChars).flatten
  if cfg.ExcludeChar ≠ [] then removeChars result cfg.ExcludeChar else result

/-- `RandomGenerator.Validate`: length in `[1, 1024]`, at least one class. -/
def randomValidate (cfg : Config) : Except String Unit :=
  if cfg.Length ≤ 0 then .error "password length must be positive"
  else if cfg.Length > 1024 then .error "password length too long (max 1024)"
  else if cfg.CharSets = [] then .error "at least one character set must be specified"
  else .ok ()

/-- The first loop of `Generate`: position `i` receives one character of the
i-th per-class alphabet, chosen by draw `i`.  (The Go loop skips an empty
alphabet; that branch is unreachable because `buildIndividualCharsets` keeps
only non-empty alphabets, and the `getD` default mirrors it.) -/
def prefill (charsets : List (List Char)) (rng : Nat → Nat) : List Char :=
  charsets.enum.map (fun p => p.2.getD (rng p.1 % p.2.length) 'A')

/-- The second loop of `Generate`: positions `k..n-1` receive independent
draws from the union alphabet, consuming draws `k..n-1`. -/
def filler (n k : Nat) (full : List Char) (rng : Nat → Nat) : List Char :=
  (List.range (n - k)).map (fun j => full.getD (rng (k + j) % full.length) 'A')

/-- The swap of `shufflePassword`'s loop body (out-of-range indices leave the
list unchanged; in `Generate` both indices are always in range). -/
def swapList (l : List Char) (i j : Nat) : List Char :=
  match l.get? i, l.get? j with
  | some a, some b => (l.set i b).set j a
  | _, _ => l

/-- `RandomGenerator.shufflePassword`'s Fisher-Yates loop: for
`i = n-1, …, 1`, swap position `i` with a drawn position `j ≤ i`; `d` is the
index of the next unconsumed draw of the stream. -/
def fyLoop (rng : Nat → Nat) (d : Nat) (l : List Char) : Nat → List Char
  | 0 => l
  | i + 1 => fyLoop rng (d + 1) (swapList l (i + 1) (rng d % (i + 2))) i

/-- `RandomGenerator.Generate`: validate, build the per-class alphabets,
check the length can cover them, prefill one character per class, fill the
rest from the union alphabet, then Fisher-Yates shuffle.  Draws `0..k-1` are
the per-class picks, `k..n-1` the fill picks, and `n..2n-3` the shuffle picks,
exactly the order the Go code consumes them. -/
def randomGenerate (cfg : Config) (rng : Nat → Nat) : Except String (List Char) :=
  match randomValidate cfg with
  | .error e => .error e
  | .ok _ =>
    if buildIndividualCharsets cfg = [] then .error "no valid character sets"
    else if cfg.Length < ((buildIndividualCharsets cfg).length : Int) then
      .error "password length must be at least equal to number of enabled character types"
    else if buildCharset cfg = [] then .error "no valid characters in charset"
    else
      .ok (fyLoop rng cfg.Length.toNat
        (prefill (buildIndividualCharsets cfg) rng ++
          filler cfg.Length.toNat (buildIndividualCharsets cfg).length (buildCharset cfg) rng)
        (cfg.Length.toNat - 1))

/-! ## Encrypted history store (`HistoryManager`, internal/utils)

Bytes are modelled as `List Nat`; `time.Time` is modelled as a `Nat`
timestamp whose zero value corresponds to Go's `time.Time.IsZero()`. -/

/-- The Go struct's `Type` field is named `EntryType` here because `Type` is
a Lean keyword. -/
structure HistoryEntry where
  ID : String
  Password : String
  Length : Int
  EntryType : String
  Settings : String
  CreatedAt : Nat
  Description : String
deriving DecidableEq

structure HistoryManager where
  enabled : Bool
  passphrase : String
  maxEntries : Int
deriving DecidableEq

/-- `NewHistoryManager`: a non-positive cap defaults to 100. -/
def NewHistoryManager (enabled : Bool) (passphrase : String) (maxEntries : Int) :
    HistoryManager :=
  if maxEntries ≤ 0 then ⟨enabled, passphrase, 100⟩
  else ⟨enabled, passphrase, maxEntries⟩

/-- Modelled from the spec: PBKDF2-HMAC-SHA-256 (golang.org/x/crypto/pbkdf2,
external to this repository) deriving a 32-byte key from the passphrase bytes
and the salt.  Modelled as an ideal injective key-derivation function: the
derived key determines the (passphrase, salt) pair. -/
def pbkdf2Key (passphrase : String) (salt : List Nat) : List Nat :=
  passphrase.toList.length :: (passphrase.toList.map Char.toNat ++ salt)

/-- Modelled from the spec: AES-256-GCM sealing (crypto/cipher, external to
this repository).  Modelled as an ideal authenticated-encryption scheme: the
ciphertext is an opaque blob that `gcmOpen` accepts exactly when presented
with the same key and nonce it was sealed under. -/
def gcmSeal (key nonce data : List Nat) : List Nat :=
  key.length :: nonce.length :: data.length :: (key ++ nonce ++ data)

/-- Modelled from the spec: AES-256-GCM opening — authentication fails (and
`none` is returned, never corrupted plaintext) unless key and nonce match the
ones used by `gcmSeal`. -/
def gcmOpen (key nonce ct : List Nat) : Option (List Nat) :=
  match ct with
  | kl :: nl :: dl :: rest =>
    if kl = key.length ∧ nl = nonce.length ∧ rest.take kl = key ∧
        (rest.drop kl).take nl = nonce ∧ (rest.drop (kl + nl)).length = dl then
      some (rest.drop (kl + nl))
    else none
  | _ => none

/-- `HistoryManager.encrypt`: derive a key from the passphrase and a fresh
16-byte salt, seal under a fresh 12-byte nonce, and return
`salt ++ nonce ++ ciphertext`.  The two `rand.Read` results are the `salt`
and `nonce` parameters. -/
def HistoryManager.encrypt (h : HistoryManager) (salt nonce data : List Nat) : List Nat :=
  salt ++ nonce ++ gcmSeal (pbkdf2Key h.passphrase salt) nonce data

/-- `HistoryManager.decrypt`: reject blobs shorter than salt+nonce, split
`salt := [:16]`, `nonce := [16:28]`, `ciphertext := [28:]`, re-derive the key
from the stored salt, and open. -/
def HistoryManager.decrypt (h : HistoryManager) (encryptedData : List Nat) :
    Except String (List Nat) :=
  if encryptedData.length < 16 + 12 then .error "encrypted data too short"
  else
    match gcmOpen (pbkdf2Key h.passphrase (encryptedData.take 16))
        ((encryptedData.drop 16).take 12) (encryptedData.drop 28) with
    | some plaintext => .ok plaintext
    | none => .error "decryption failed"

/-! The remaining history claims concern the entry-list state machine.  The
history file is modelled at the list level: `none` is an absent file, and
`some entries` a file whose encrypted content decrypts (with the correct
passphrase) to `entries` — the byte-level pipeline
(JSON ∘ encrypt / decrypt ∘ parse) is the round trip established by C1. -/

/-- `HistoryManager.LoadHistory`: guard on enabled and passphrase; an absent
file loads as the empty list. -/
def HistoryManager.LoadHistory (h : HistoryManager) (file : Option (List HistoryEntry)) :
    Except String (List HistoryEntry) :=
  if h.enabled = false then .error "history is disabled"
  else if h.passphrase = "" then .error "history passphrase not set"
  else
    match file with
    | none => .ok []
    | some entries => .ok entries

/-- The ID/timestamp normalization inside `AddEntry`: an empty ID is replaced
by the freshly generated one, a zero creation time by the current time. -/
def normalizeEntry (entry : HistoryEntry) (freshId : String) (now : Nat) : HistoryEntry :=
  { entry with
    ID := if entry.ID = "" then freshId else entry.ID
    CreatedAt := if entry.CreatedAt = 0 then now else entry.CreatedAt }

/-- `HistoryManager.AddEntry`: guards, load, normalize, prepend, truncate to
the cap, save.  `freshId` and `now` stand for the `generateID()` and
`time.Now()` environment reads; the returned value is the new file content. -/
def HistoryManager.AddEntry (h : HistoryManager) (file : Option (List HistoryEntry))
    (entry : HistoryEntry) (freshId : String) (now : Nat) :
    Except String (Option (List HistoryEntry)) :=
  if h.enabled = false then .error "history is disabled"
  else if h.passphrase = "" then .error "history passphrase not set"
  else
    match h.LoadHistory file with
    | .error e => .error e
    | .ok entries =>
      if ((normalizeEntry entry freshId now :: entries).length : Int) > h.maxEntries then
        .ok (some ((normalizeEntry entry freshId now :: entries).take h.maxEntries.toNat))
      else .ok (some (normalizeEntry entry freshId now :: entries))

/-- A sequence of `AddEntry` calls, each with its own entry, generated ID and
clock reading, threaded through the history file. -/
def HistoryManager.addAll (h : HistoryManager) (file : Option (List HistoryEntry)) :
    List (HistoryEntry × String × Nat) → Except String (Option (List HistoryEntry))
  | [] => .ok file
  | a :: rest =>
    match h.AddEntry file a.1 a.2.1 a.2.2 with
    | .error e => .error e
    | .ok file' => h.addAll file' rest

/-! ## Security analyzer (internal/generator/analyzer.go)

Go `float64` arithmetic is modelled over `ℝ`.  For the quantities these
claims concern the Go computation stays finite (`logBase2` guards
non-positive inputs), so the real-valued idealization matches up to float
rounding.  Passwords are `List Char` (one entry per rune); where Go takes the
byte length `len(password)` we use the UTF-8 byte length `utf8Len`.  The
Unicode category tests (`unicode.IsLower` …), `strings.ToLower` and the
byte-wise pattern scans are embedded at the rune level, which coincides with
Go on ASCII input; none of the claims below depends on their value at
non-ASCII code points (the penalties they feed into are bounded by the same
constants either way). -/

/-- UTF-8 byte count of one rune (Go's `len` on strings counts bytes). -/
def charBytes (c : Char) : Nat :=
  if c.toNat < 0x80 then 1
  else if c.toNat < 0x800 then 2
  else if c.toNat < 0x10000 then 3
  else 4

/-- Byte length of a Go string holding these runes. -/
def utf8Len (s : List Char) : Nat := (s.map charBytes).sum

inductive SecurityLevel where
  | VeryWeak
  | Weak
  | Fair
  | Good
  | Strong
  | VeryStrong
deriving DecidableEq

/-- The Go `iota` value of each level. -/
def SecurityLevel.toInt : SecurityLevel → Int
  | .VeryWeak => 0
  | .Weak => 1
  | .Fair => 2
  | .Good => 3
  | .Strong => 4
  | .VeryStrong => 5

/-- Go's `level--`.  In `calculateSecurityLevel` it only runs under the guard
`level > Weak`, so the `Weak`/`VeryWeak` clauses (saturating at the weakest
tier) are never reached by the embedded code path. -/
def SecurityLevel.pred : SecurityLevel → SecurityLevel
  | .VeryStrong => .Strong
  | .Strong => .Good
  | .Good => .Fair
  | .Fair => .Weak
  | .Weak => .VeryWeak
  | .VeryWeak => .VeryWeak

/-- `logBase2` from the generator package: guards non-positive input. -/
noncomputable def logBase2 (x : ℝ) : ℝ := if x ≤ 0 then 0 else Real.logb 2 x

/-- `unicode.IsLower` restricted to ASCII (coincides with Go there). -/
def hasLowercase (s : List Char) : Bool := s.any (fun c => c.isLower)

def hasUppercase (s : List Char) : Bool := s.any (fun c => c.isUpper)

def hasNumbers (s : List Char) : Bool := s.any (fun c => c.isDigit)

/-- `unicode.IsPunct || unicode.IsSymbol` restricted to ASCII: the 32
non-alphanumeric printable ASCII characters. -/
def isSymbolRune (c : Char) : Bool :=
  "!\"#$%&'()*+,-./:;<=>?@[\\]^_\x7b|\x7d~".toList.contains c || c = '`'

def hasSymbols (s : List Char) : Bool := s.any isSymbolRune

def hasAmbiguous (s : List Char) : Bool := s.any (fun c => "0O1lI".toList.contains c)

/-- `calculateCharsetSize`: theoretical union size of the present classes,
capped by the number of distinct runes actually used. -/
def calculateCharsetSize (password : List Char) : Nat :=
  let size := (if hasLowercase password then 26 else 0) +
    (if hasUppercase password then 26 else 0) +
    (if hasNumbers password then 10 else 0) +
    (if hasSymbols password then 32 else 0)
  if password.dedup.length < size then password.dedup.length else size

/-- `totalRepeats` of `calculateRepetitionPenalty`: for each distinct rune
occurring more than once, its occurrence count minus one. -/
def totalRepeats (password : List Char) : Nat :=
  (password.dedup.map (fun c => password.count c - 1)).sum

/-- `calculateRepetitionPenalty`: `1 - repeats/len * 0.5`, floored at 0.3. -/
noncomputable def calculateRepetitionPenalty (password : List Char) : ℝ :=
  if utf8Len password = 0 then 1
  else
    if 1 - ((totalRepeats password : ℝ) / (utf8Len password : ℝ)) * 0.5 < 0.3 then 0.3
    else 1 - ((totalRepeats password : ℝ) / (utf8Len password : ℝ)) * 0.5

/-- `hasSequentialChars`: the Go loop counts consecutive unit-step pairs and
reports a run of two, i.e. some three consecutive characters in ascending
unit steps. -/
def hasSequentialChars (s : List Char) : Bool :=
  if s.length < 3 then false
  else (List.range (s.length - 2)).any (fun i =>
    decide ((s.getD i 'a').toNat + 1 = (s.getD (i + 1) 'a').toNat ∧
      (s.getD (i + 1) 'a').toNat + 1 = (s.getD (i + 2) 'a').toNat))

def keyboardPatterns : List (List Char) :=
  ["qwerty", "asdf", "zxcv", "qwer", "asdf", "zxcv",
   "123456", "abcdef", "qazwsx", "wsxedc"].map String.toList

def hasKeyboardPattern (s : List Char) : Bool :=
  keyboardPatterns.any (fun p => decide (p <:+: s))

/-- `hasCommonSubstitutions`: at least two of the leetspeak marker characters
occur (Go iterates a map of single-character substrings; `Contains` with a
single-character pattern is membership). -/
def substitutionMarkers : List Char := ['@', '3', '1', '0', '5', '7', '4', '8', '6', '2']

def hasCommonSubstitutions (s : List Char) : Bool :=
  2 ≤ substitutionMarkers.countP (fun m => s.contains m)

/-- `hasRepeatedPatterns`: some substring of length `2..len/2` recurs later
in the string. -/
def hasRepeatedPatterns (s : List Char) : Bool :=
  if s.length < 4 then false
  else (List.range' 2 (s.length / 2 - 1)).any (fun len =>
    (List.range (s.length - len * 2 + 1)).any (fun start =>
      decide (((s.drop start).take len) <:+: (s.drop (start + len)))))

/-- `calculatePatternPenalty`: a multiplicative chain over the four pattern
conditions (sequential, keyboard and repeated patterns are checked on the
lowercased string, substitutions on the original). -/
noncomputable def calculatePatternPenalty (password : List Char) : ℝ :=
  (if hasSequentialChars (password.map Char.toLower) then (0.7 : ℝ) else 1) *
  (if hasKeyboardPattern (password.map Char.toLower) then (0.6 : ℝ) else 1) *
  (if hasCommonSubstitutions password then (0.8 : ℝ) else 1) *
  (if hasRepeatedPatterns (password.map Char.toLower) then (0.5 : ℝ) else 1)

/-- `calculateEntropy`: `len × log2(charsetSize)`, times both penalties,
floored at 10% of the base value; the empty string short-circuits to 0. -/
noncomputable def calculateEntropy (password : List Char) : ℝ :=
  if utf8Len password = 0 then 0
  else
    if (utf8Len password : ℝ) * logBase2 (calculateCharsetSize password : ℝ) *
          calculateRepetitionPenalty password * calculatePatternPenalty password <
        (utf8Len password : ℝ) * logBase2 (calculateCharsetSize password : ℝ) * 0.1 then
      (utf8Len password : ℝ) * logBase2 (calculateCharsetSize password : ℝ) * 0.1
    else
      (utf8Len password : ℝ) * logBase2 (calculateCharsetSize password : ℝ) *
        calculateRepetitionPenalty password * calculatePatternPenalty password

/-- The common-password list of `getCommonPasswords`. -/
def commonPasswords : List String :=
  ["password", "123456", "123456789", "guest", "qwerty", "12345678", "111111", "12345",
   "col123456", "123123", "1234567", "1234", "1234567890", "000000", "555555", "666666",
   "123321", "654321", "7777777", "123", "D1lakiss", "777777", "110110jp", "1111",
   "987654321", "121212", "Gizli", "abc123", "112233", "azerty", "159753", "1q2w3e4r",
   "54321", "pass@123", "222222", "qwertyui", "1234554321", "123qwe", "qwerty123",
   "password1", "administrator", "1111111", "123456a", "qwerty1", "password123",
   "Passwd", "welcome", "admin", "master", "hello", "dragon", "monkey", "letmein",
   "login", "princess", "qwertyuiop", "solo", "passw0rd", "starwars", "shadow",
   "sunshine", "12345678910", "football", "iloveyou", "superman", "trustno1", "jesus",
   "mustang", "ninja", "michael", "charlie"]

/-- `isCommonPassword`: the lowercased password equals a list entry exactly.
(`Char.toLower` coincides with Go's `strings.ToLower` on ASCII.) -/
def isCommonPassword (password : List Char) : Bool :=
  commonPasswords.any (fun common => password.map Char.toLower = common.toList)

/-- The entropy-threshold tiers of `calculateSecurityLevel`'s switch (also
the tiers as the spec lists them: ≥80, ≥60, ≥45, ≥30, ≥20, <20). -/
noncomputable def thresholdTier (entropy : ℝ) : SecurityLevel :=
  if entropy ≥ 80 then .VeryStrong
  else if entropy ≥ 60 then .Strong
  else if entropy ≥ 45 then .Good
  else if entropy ≥ 30 then .Fair
  else if entropy ≥ 20 then .Weak
  else .VeryWeak

/-- `calculateSecurityLevel`: threshold the entropy, decrement once when the
length is below 8 and the level is above `Weak`, and force `VeryWeak` for a
known-compromised password. -/
noncomputable def calculateSecurityLevel (entropy : ℝ) (length : Int)
    (password : List Char) : SecurityLevel :=
  if isCommonPassword password then .VeryWeak
  else if length < 8 ∧ (thresholdTier entropy).toInt > SecurityLevel.Weak.toInt then
    (thresholdTier entropy).pred
  else thresholdTier entropy

/-- The fields of `SecurityAnalysis` the claims refer to (`CrackTime`,
`CommonWords` and `Feedback` are presentation fields not touched by any
claim and are not modelled). -/
structure SecurityAnalysis where
  Entropy : ℝ
  Level : SecurityLevel
  CharsetSize : Nat
  HasLowercase : Bool
  HasUppercase : Bool
  HasNumbers : Bool
  HasSymbols : Bool
  HasAmbiguous : Bool
  IsCompromised : Bool

/-- `SecurityAnalyzer.Analyze`. -/
noncomputable def Analyze (password : List Char) : SecurityAnalysis :=
  { Entropy := calculateEntropy password
    Level := calculateSecurityLevel (calculateEntropy password)
      (utf8Len password : Int) password
    CharsetSize := calculateCharsetSize password
    HasLowercase := hasLowercase password
    HasUppercase := hasUppercase password
    HasNumbers := hasNumbers password
    HasSymbols := hasSymbols password
    HasAmbiguous := hasAmbiguous password
    IsCompromised := isCommonPassword password }

/-- Stated from the spec's words, for comparison with
`calculateSecurityLevel`: threshold the entropy into the six tiers, downgrade
by one tier (saturating at the weakest) whenever the byte length is below 8,
and force the weakest tier on a case-insensitive compromised-list match. -/
noncomputable def specLevel (password : List Char) : SecurityLevel :=
  if isCommonPassword password then .VeryWeak
  else if (utf8Len password : Int) < 8 then (thresholdTier (calculateEntropy password)).pred
  else thresholdTier (calculateEntropy password)

/-! ## Theorems -/

example : pinGenerate 6 (fun i => i) = .ok ['0', '1', '2', '3', '4', '5'] := by rfl

example : pinGenerateFormatted 8 (fun _ => 0) ['-'] 3 =
    .ok ['0', '0', '0', '-', '0', '0', '0', '-', '0', '0'] := by rfl

example : pinGenerateFormatted 8 (fun _ => 0) ['-'] 4 =
    .ok ['0', '0', '0', '0', '-', '0', '0', '0', '0'] := by rfl

theorem digitChar_isDigit : ∀ m : Nat, m < 10 → (Char.ofNat (48 + m)).isDigit = true := by
  decide

theorem pinDigits_length (n : Nat) (rng : Nat → Nat) : (pinDigits n rng).length = n := by
  simp [pinDigits]

theorem pinDigits_all_digits (n : Nat) (rng : Nat → Nat) :
    ∀ c ∈ pinDigits n rng, c.isDigit = true := by
  intro c hc
  simp only [pinDigits, List.mem_map, List.mem_range] at hc
  obtain ⟨i, _, rfl⟩ := hc
  exact digitChar_isDigit _ (Nat.mod_lt _ (by norm_num))

theorem insertSep_eq_specInsert (pin sep : List Char) (g : Nat) :
    insertSep pin sep g = specInsertBeforeMultiples pin sep g := by
  unfold insertSep specInsertBeforeMultiples
  congr 1
  apply List.map_congr_left
  intro a _
  congr 1
  apply if_congr _ rfl rfl
  constructor
  · exact fun h => ⟨h.1, Nat.dvd_iff_mod_eq_zero.mpr h.2⟩
  · exact fun h => ⟨h.1, Nat.dvd_iff_mod_eq_zero.mp h.2⟩

/-- Filtering the digits back out of the interleaved blocks recovers the
second components, provided the separator contains no digits and every data
character is a digit. -/
theorem filter_digit_blocks (p : Nat → Prop) [DecidablePred p] (sep : List Char)
    (hsep : ∀ c ∈ sep, c.isDigit = false) :
    ∀ L : List (Nat × Char), (∀ q ∈ L, (q.2).isDigit = true) →
      ((L.map (fun q => (if p q.1 then sep else []) ++ [q.2])).flatten).filter
          (fun c => c.isDigit) = L.map Prod.snd := by
  intro L
  induction L with
  | nil => intro _; rfl
  | cons a L ih =>
    intro hd
    simp only [List.map_cons, List.flatten_cons, List.filter_append]
    rw [ih (fun q hq => hd q (List.mem_cons_of_mem _ hq))]
    have h1 : (if p a.1 then sep else []).filter (fun c => c.isDigit) = [] := by
      by_cases hp : p a.1
      · simp only [if_pos hp, List.filter_eq_nil_iff]
        intro c hc
        simp [hsep c hc]
      · simp [if_neg hp]
    have h2 : ([a.2].filter (fun c => c.isDigit)) = [a.2] := by
      simp [List.filter_cons, hd a (List.mem_cons_self _ _)]
    rw [h1, h2]
    rfl

theorem sum_ite_add_one (k : Nat) (p : Nat → Prop) [DecidablePred p] (L : List Nat) :
    (L.map (fun i => (if p i then k else 0) + 1)).sum
      = L.length + k * L.countP (fun i => decide (p i)) := by
  induction L with
  | nil => rfl
  | cons a L ih =>
    by_cases hp : p a <;>
      simp [hp, ih, List.countP_cons, Nat.mul_add, Nat.mul_succ] <;> omega

theorem countP_range_multiples (g : Nat) :
    ∀ n : Nat, (List.range n).countP (fun i => decide (0 < i ∧ i % g = 0)) = (n - 1) / g := by
  intro n
  induction n with
  | zero => simp
  | succ n ih =>
    rw [List.range_succ, List.countP_append, ih]
    have hone : (List.countP (fun i => decide (0 < i ∧ i % g = 0)) [n])
        = if 0 < n ∧ g ∣ n then 1 else 0 := by
      simp [List.countP_cons, List.countP_nil, Nat.dvd_iff_mod_eq_zero, And.comm]
    rw [hone]
    cases n with
    | zero => simp
    | succ m =>
      have : (0 < m + 1 ∧ g ∣ m + 1) ↔ g ∣ m + 1 := by
        constructor
        · exact fun h => h.2
        · exact fun h => ⟨Nat.succ_pos m, h⟩
      rw [if_congr this rfl rfl]
      simp only [Nat.succ_sub_one]
      exact (Nat.succ_div m g).symm

theorem insertSep_length (pin sep : List Char) (g : Nat) :
    (insertSep pin sep g).length
      = pin.length + sep.length * ((pin.length - 1) / g) := by
  unfold insertSep
  rw [List.length_flatten, List.map_map]
  have hmap : (List.map (List.length ∘ fun q : Nat × Char =>
      (if 0 < q.1 ∧ q.1 % g = 0 then sep else []) ++ [q.2]) pin.enum)
      = List.map ((fun i => (if 0 < i ∧ i % g = 0 then sep.length else 0) + 1) ∘ Prod.fst)
          pin.enum := by
    apply List.map_congr_left
    intro a _
    simp only [Function.comp_apply, List.length_append, List.length_cons, List.length_nil]
    congr 1
    by_cases hp : 0 < a.1 ∧ a.1 % g = 0 <;> simp [hp]
  rw [hmap, ← List.map_map, List.enum_map_fst, sum_ite_add_one, List.length_range,
    countP_range_multiples]

/-- C10: for a valid PIN length and a non-degenerate grouping, the formatted
PIN is the unformatted digit string with the separator inserted before each
position that is a positive multiple of the group size; it has exactly
`⌊(n-1)/g⌋` separator insertions (reflected in its total length), and — when
the separator itself contains no digit — filtering the digits back out
recovers the `n` PIN digits in order.  In the degenerate cases the
unformatted PIN is returned unchanged. -/
theorem C10_pinGenerateFormatted_spec (len g : Int) (rng : Nat → Nat) (sep s : List Char)
    (hs : pinGenerateFormatted len rng sep g = .ok s) :
    ((sep = [] ∨ g ≤ 0 ∨ g ≥ len) → s = pinDigits len.toNat rng) ∧
    (sep ≠ [] → 0 < g → g < len →
      s = specInsertBeforeMultiples (pinDigits len.toNat rng) sep g.toNat ∧
      s.length = len.toNat + ((len.toNat - 1) / g.toNat) * sep.length ∧
      ((∀ c ∈ sep, c.isDigit = false) →
        s.filter (fun c => c.isDigit) = pinDigits len.toNat rng ∧
        (s.filter (fun c => c.isDigit)).length = len.toNat)) := by
  by_cases h1 : len ≤ 0
  · simp [pinGenerateFormatted, pinGenerate, pinValidate, h1] at hs
  by_cases h2 : len > 50
  · simp [pinGenerateFormatted, pinGenerate, pinValidate, h1, h2] at hs
  have hlen : ((pinDigits len.toNat rng).length : Int) = len := by
    rw [pinDigits_length]
    exact Int.toNat_of_nonneg (by omega)
  simp only [pinGenerateFormatted, pinGenerate, pinValidate, if_neg h1, if_neg h2] at hs
  rw [hlen] at hs
  by_cases hbr : sep = [] ∨ g ≤ 0 ∨ g ≥ len
  · rw [if_pos hbr] at hs
    have hsv : s = pinDigits len.toNat rng := by
      cases hs
      rfl
    constructor
    · exact fun _ => hsv
    · intro hsep hg hglen
      rcases hbr with h | h | h
      · exact absurd h hsep
      · omega
      · omega
  · rw [if_neg hbr] at hs
    have hsv : s = insertSep (pinDigits len.toNat rng) sep g.toNat := by
      cases hs
      rfl
    constructor
    · intro hbr'
      exact absurd hbr' hbr
    · intro hsep hg hglen
      subst hsv
      refine ⟨insertSep_eq_specInsert _ _ _, ?_, ?_⟩
      · rw [insertSep_length, pinDigits_length, Nat.mul_comm]
      · intro hnd
        have hfd := filter_digit_blocks (fun i => 0 < i ∧ i % g.toNat = 0) sep hnd
          (pinDigits len.toNat rng).enum
          (by
            intro q hq
            apply pinDigits_all_digits
            have : q.2 ∈ List.map Prod.snd (pinDigits len.toNat rng).enum :=
              List.mem_map_of_mem Prod.snd hq
            rwa [List.enum_map_snd] at this)
        refine ⟨?_, ?_⟩
        · rw [insertSep, hfd, List.enum_map_snd]
        · rw [insertSep, hfd, List.enum_map_snd, pinDigits_length]

/-- C10 witness: the amended statement evaluated at a PIN of length 8,
separator "-", group size 3 and the all-zeros draw stream. -/
theorem C10_pinGenerateFormatted_spec_witness :
    (((['-'] : List Char) = [] ∨ (3 : Int) ≤ 0 ∨ (3 : Int) ≥ 8) →
      (['0', '0', '0', '-', '0', '0', '0', '-', '0', '0'] : List Char)
        = pinDigits (8 : Int).toNat (fun _ => 0)) ∧
    ((['-'] : List Char) ≠ [] → (0 : Int) < 3 → (3 : Int) < 8 →
      (['0', '0', '0', '-', '0', '0', '0', '-', '0', '0'] : List Char)
        = specInsertBeforeMultiples (pinDigits (8 : Int).toNat (fun _ => 0)) ['-'] (3 : Int).toNat ∧
      (['0', '0', '0', '-', '0', '0', '0', '-', '0', '0'] : List Char).length
        = (8 : Int).toNat + (((8 : Int).toNat - 1) / (3 : Int).toNat) * (['-'] : List Char).length ∧
      ((∀ c ∈ (['-'] : List Char), c.isDigit = false) →
        (['0', '0', '0', '-', '0', '0', '0', '-', '0', '0'] : List Char).filter
            (fun c => c.isDigit) = pinDigits (8 : Int).toNat (fun _ => 0) ∧
        ((['0', '0', '0', '-', '0', '0', '0', '-', '0', '0'] : List Char).filter
            (fun c => c.isDigit)).length = (8 : Int).toNat)) :=
  C10_pinGenerateFormatted_spec 8 3 (fun _ => 0) ['-'] _ rfl

/-- C10 counterexample: with the separator "0" (which is itself a digit), an
8-digit PIN grouped by 3 formats to a string with 10 digit characters, not 8 —
the claim's "exactly n digit characters" clause fails as stated. -/
theorem C10_counterexample :
    pinGenerateFormatted 8 (fun _ => 0) ['0'] 3 = .ok (List.replicate 10 '0') ∧
    ((List.replicate 10 '0').filter (fun c => c.isDigit)).length ≠ 8 := by
  constructor
  · rfl
  · decide

/-- C8 (amended): a PIN of length 8 formatted with separator "-" and group
size 3 always has the shape `"###-###-##"`: ten characters, the PIN's eight
digits in order with one dash before positions 3 and 6 of the digit string. -/
theorem C8_pinFormatted_shape (rng : Nat → Nat) (s : List Char)
    (hs : pinGenerateFormatted 8 rng ['-'] 3 = .ok s) :
    ∃ d : Nat → Nat, (∀ i, d i < 10) ∧
      s = [Char.ofNat (48 + d 0), Char.ofNat (48 + d 1), Char.ofNat (48 + d 2), '-',
           Char.ofNat (48 + d 3), Char.ofNat (48 + d 4), Char.ofNat (48 + d 5), '-',
           Char.ofNat (48 + d 6), Char.ofNat (48 + d 7)] ∧
      (∀ m : Nat, m < 10 → (Char.ofNat (48 + m)).isDigit = true) := by
  refine ⟨fun i => rng i % 10, fun i => Nat.mod_lt _ (by norm_num), ?_, digitChar_isDigit⟩
  have hcalc : pinGenerateFormatted 8 rng ['-'] 3 =
      .ok [Char.ofNat (48 + rng 0 % 10), Char.ofNat (48 + rng 1 % 10),
           Char.ofNat (48 + rng 2 % 10), '-',
           Char.ofNat (48 + rng 3 % 10), Char.ofNat (48 + rng 4 % 10),
           Char.ofNat (48 + rng 5 % 10), '-',
           Char.ofNat (48 + rng 6 % 10), Char.ofNat (48 + rng 7 % 10)] := by
    simp [pinGenerateFormatted, pinGenerate, pinValidate, pinDigits, insertSep,
      List.range_succ, List.enum, List.enumFrom]
  rw [hcalc] at hs
  cases hs
  rfl

/-- C8 witness: the amended shape theorem evaluated on the all-zeros draw
stream. -/
theorem C8_pinFormatted_shape_witness :
    ∃ d : Nat → Nat, (∀ i, d i < 10) ∧
      (['0', '0', '0', '-', '0', '0', '0', '-', '0', '0'] : List Char)
        = [Char.ofNat (48 + d 0), Char.ofNat (48 + d 1), Char.ofNat (48 + d 2), '-',
           Char.ofNat (48 + d 3), Char.ofNat (48 + d 4), Char.ofNat (48 + d 5), '-',
           Char.ofNat (48 + d 6), Char.ofNat (48 + d 7)] ∧
      (∀ m : Nat, m < 10 → (Char.ofNat (48 + m)).isDigit = true) :=
  C8_pinFormatted_shape (fun _ => 0) _ rfl

/-- C8 counterexample: with group size 3 (as the claim states) the formatted
8-digit PIN is `"000-000-00"`, which is not of the claimed shape
`"####-####"` (two groups of four digits separated by one dash). -/
theorem C8_counterexample :
    pinGenerateFormatted 8 (fun _ => 0) ['-'] 3 =
      .ok ['0', '0', '0', '-', '0', '0', '0', '-', '0', '0'] ∧
    shape4Dash4 ['0', '0', '0', '-', '0', '0', '0', '-', '0', '0'] = false := by
  exact ⟨rfl, rfl⟩

example : randomGenerate ⟨4, [.Lowercase, .Uppercase, .Numbers, .Symbols],
    "abcdefghijklmnopqrstuvwxyz".toList⟩ (fun _ => 0) = .ok ['0', '!', 'A', 'A'] := by rfl

theorem cons_set_perm {α : Type} : ∀ (l : List α) (i : Nat) (x y : α),
    l.get? i = some x → (x :: l.set i y).Perm (y :: l) := by
  intro l
  induction l with
  | nil => intro i x y h; simp at h
  | cons a t ih =>
    intro i x y h
    cases i with
    | zero =>
      simp only [List.get?_cons_zero, Option.some_inj] at h
      rw [h, List.set_cons_zero]
      exact List.Perm.swap y x t
    | succ i =>
      simp only [List.get?_cons_succ] at h
      rw [List.set_cons_succ]
      have step1 : (x :: a :: t.set i y).Perm (a :: x :: t.set i y) :=
        List.Perm.swap a x _
      have step2 : (a :: x :: t.set i y).Perm (a :: y :: t) :=
        List.Perm.cons a (ih i x y h)
      have step3 : (a :: y :: t).Perm (y :: a :: t) := List.Perm.swap y a t
      exact (step1.trans step2).trans step3

theorem set_set_perm {α : Type} : ∀ (l : List α) (i j : Nat) (a b : α),
    l.get? i = some a → l.get? j = some b → ((l.set i b).set j a).Perm l := by
  intro l
  induction l with
  | nil => intro i j a b h _; simp at h
  | cons c t ih =>
    intro i j a b hi hj
    cases i with
    | zero =>
      simp only [List.get?_cons_zero, Option.some_inj] at hi
      cases j with
      | zero =>
        simp only [List.get?_cons_zero, Option.some_inj] at hj
        rw [List.set_cons_zero, List.set_cons_zero, ← hi]
      | succ j =>
        simp only [List.get?_cons_succ] at hj
        rw [List.set_cons_zero, List.set_cons_succ, ← hi]
        exact cons_set_perm t j b c hj
    | succ i =>
      simp only [List.get?_cons_succ] at hi
      cases j with
      | zero =>
        simp only [List.get?_cons_zero, Option.some_inj] at hj
        rw [List.set_cons_succ, List.set_cons_zero, ← hj]
        exact cons_set_perm t i a c hi
      | succ j =>
        simp only [List.get?_cons_succ] at hj
        rw [List.set_cons_succ, List.set_cons_succ]
        exact List.Perm.cons c (ih i j a b hi hj)

theorem swapList_perm (l : List Char) (i j : Nat) : (swapList l i j).Perm l := by
  unfold swapList
  cases hi : l.get? i with
  | none => exact List.Perm.refl l
  | some a =>
    cases hj : l.get? j with
    | none => exact List.Perm.refl l
    | some b => exact set_set_perm l i j a b hi hj

theorem fyLoop_perm (rng : Nat → Nat) : ∀ (i d : Nat) (l : List Char),
    (fyLoop rng d l i).Perm l := by
  intro i
  induction i with
  | zero => intro d l; exact List.Perm.refl l
  | succ i ih =>
    intro d l
    exact (ih (d + 1) (swapList l (i + 1) (rng d % (i + 2)))).trans
      (swapList_perm l (i + 1) (rng d % (i + 2)))

theorem buildIndividualCharsets_ne_nil (cfg : Config) :
    ∀ l ∈ buildIndividualCharsets cfg, l ≠ [] := by
  intro l hl
  have := (List.mem_filter.mp hl).2
  simp only [decide_eq_true_eq] at this
  exact List.ne_nil_of_length_pos this

theorem prefill_length (charsets : List (List Char)) (rng : Nat → Nat) :
    (prefill charsets rng).length = charsets.length := by
  simp [prefill, List.enum_length]

theorem prefill_getElem (charsets : List (List Char)) (rng : Nat → Nat) (i : Nat)
    (hi : i < charsets.length) (hne : charsets[i] ≠ []) :
    (prefill charsets rng).getD i 'A' ∈ charsets[i] := by
  have hip : i < (prefill charsets rng).length := by rwa [prefill_length]
  rw [List.getD_eq_getElem _ _ hip]
  have hie : i < charsets.enum.length := by rwa [List.enum_length]
  have : (prefill charsets rng)[i]
      = charsets[i].getD (rng i % charsets[i].length) 'A' := by
    simp [prefill, List.getElem_enum]
  rw [this]
  have hpos : 0 < charsets[i].length := List.length_pos.mpr hne
  rw [List.getD_eq_getElem _ _ (Nat.mod_lt _ hpos)]
  exact List.getElem_mem _

theorem prefill_mem (charsets : List (List Char)) (rng : Nat → Nat)
    (hne : ∀ l ∈ charsets, l ≠ []) :
    ∀ x ∈ prefill charsets rng, ∃ l ∈ charsets, x ∈ l := by
  intro x hx
  simp only [prefill, List.mem_map] at hx
  obtain ⟨p, hp, rfl⟩ := hx
  have hmem : p.2 ∈ charsets := by
    have : p.2 ∈ List.map Prod.snd charsets.enum := List.mem_map_of_mem Prod.snd hp
    rwa [List.enum_map_snd] at this
  refine ⟨p.2, hmem, ?_⟩
  have hpos : 0 < p.2.length := List.length_pos.mpr (hne _ hmem)
  rw [List.getD_eq_getElem _ _ (Nat.mod_lt _ hpos)]
  exact List.getElem_mem _

theorem filler_mem (n k : Nat) (full : List Char) (rng : Nat → Nat) (hne : full ≠ []) :
    ∀ x ∈ filler n k full rng, x ∈ full := by
  intro x hx
  simp only [filler, List.mem_map, List.mem_range] at hx
  obtain ⟨j, _, rfl⟩ := hx
  have hpos : 0 < full.length := List.length_pos.mpr hne
  rw [List.getD_eq_getElem _ _ (Nat.mod_lt _ hpos)]
  exact List.getElem_mem _

theorem classAlphabet_not_excluded (cfg : Config) (cs : CharSet) :
    ∀ c ∈ classAlphabet cfg cs, c ∉ cfg.ExcludeChar := by
  intro c hc
  unfold classAlphabet at hc
  by_cases hex : cfg.ExcludeChar = []
  · simp [hex]
  · rw [if_pos hex] at hc
    have := (List.mem_filter.mp hc).2
    simp only [Bool.not_eq_eq_eq_not, Bool.not_true] at this
    simpa using this

theorem buildCharset_not_excluded (cfg : Config) :
    ∀ c ∈ buildCharset cfg, c ∉ cfg.ExcludeChar := by
  intro c hc
  unfold buildCharset at hc
  by_cases hex : cfg.ExcludeChar = []
  · simp [hex]
  · rw [if_pos hex] at hc
    have := (List.mem_filter.mp hc).2
    simp only [Bool.not_eq_eq_eq_not, Bool.not_true] at this
    simpa using this

/-- Peels the success case of `randomGenerate`: the result is the
Fisher-Yates shuffle of the prefill-plus-filler buffer, and none of the
guards fired. -/
theorem randomGenerate_ok (cfg : Config) (rng : Nat → Nat) (s : List Char)
    (hs : randomGenerate cfg rng = .ok s) :
    buildIndividualCharsets cfg ≠ [] ∧ buildCharset cfg ≠ [] ∧
    s = fyLoop rng cfg.Length.toNat
      (prefill (buildIndividualCharsets cfg) rng ++
        filler cfg.Length.toNat (buildIndividualCharsets cfg).length (buildCharset cfg) rng)
      (cfg.Length.toNat - 1) := by
  unfold randomGenerate at hs
  cases hval : randomValidate cfg with
  | error e => rw [hval] at hs; simp at hs
  | ok u =>
    rw [hval] at hs
    by_cases h1 : buildIndividualCharsets cfg = []
    · simp [h1] at hs
    · by_cases h2 : cfg.Length < ((buildIndividualCharsets cfg).length : Int)
      · simp [h1, h2] at hs
      · by_cases h3 : buildCharset cfg = []
        · simp [h1, h2, h3] at hs
        · simp only [if_neg h1, if_neg h2, if_neg h3, Except.ok.injEq] at hs
          exact ⟨h1, h3, hs.symm⟩

/-- C6: no character of a successfully generated password belongs to the
caller-supplied exclusion set. -/
theorem C6_no_excluded_chars (cfg : Config) (rng : Nat → Nat) (s : List Char)
    (hs : randomGenerate cfg rng = .ok s) :
    ∀ c ∈ s, c ∉ cfg.ExcludeChar := by
  obtain ⟨h1, h3, hval⟩ := randomGenerate_ok cfg rng s hs
  intro c hc
  rw [hval] at hc
  have hperm := fyLoop_perm rng (cfg.Length.toNat - 1) cfg.Length.toNat
    (prefill (buildIndividualCharsets cfg) rng ++
      filler cfg.Length.toNat (buildIndividualCharsets cfg).length (buildCharset cfg) rng)
  have hcbuf := hperm.mem_iff.mp hc
  rcases List.mem_append.mp hcbuf with hpre | hfil
  · obtain ⟨l, hl, hcl⟩ := prefill_mem _ rng (buildIndividualCharsets_ne_nil cfg) c hpre
    have hlmap : l ∈ cfg.CharSets.map (classAlphabet cfg) := (List.mem_filter.mp hl).1
    obtain ⟨cs, _, rfl⟩ := List.mem_map.mp hlmap
    exact classAlphabet_not_excluded cfg cs c hcl
  · exact buildCharset_not_excluded cfg c
      (filler_mem cfg.Length.toNat (buildIndividualCharsets cfg).length _ rng h3 c hfil)

/-- C6 witness: a concrete generation with exclusions `['a', 'A']` whose
output avoids the excluded characters. -/
theorem C6_no_excluded_chars_witness :
    ∃ s, randomGenerate
        ⟨4, [.Lowercase, .Uppercase, .Numbers, .Symbols], ['a', 'A']⟩ (fun _ => 0) = .ok s ∧
      ∀ c ∈ s, c ∉ (⟨4, [CharSet.Lowercase, .Uppercase, .Numbers, .Symbols],
        ['a', 'A']⟩ : Config).ExcludeChar :=
  ⟨_, rfl, C6_no_excluded_chars _ _ _ rfl⟩

/-- C2 (amended): on success, (a) the password contains at least one
character from each selected class whose post-exclusion alphabet is
non-empty, (b) the password is a permutation (equal multiset) of the
pre-shuffle buffer, and (c) position `i` of that buffer's first-`k` block
holds a character of the i-th per-class alphabet. -/
theorem C2_class_coverage (cfg : Config) (rng : Nat → Nat) (s : List Char)
    (hs : randomGenerate cfg rng = .ok s) :
    (∀ cs ∈ cfg.CharSets, classAlphabet cfg cs ≠ [] →
      ∃ c ∈ s, c ∈ classAlphabet cfg cs) ∧
    s.Perm (prefill (buildIndividualCharsets cfg) rng ++
      filler cfg.Length.toNat (buildIndividualCharsets cfg).length (buildCharset cfg) rng) ∧
    (∀ i, i < (buildIndividualCharsets cfg).length →
      (prefill (buildIndividualCharsets cfg) rng).getD i 'A'
        ∈ (buildIndividualCharsets cfg).getD i []) := by
  obtain ⟨h1, h3, hval⟩ := randomGenerate_ok cfg rng s hs
  have hperm : s.Perm (prefill (buildIndividualCharsets cfg) rng ++
      filler cfg.Length.toNat (buildIndividualCharsets cfg).length (buildCharset cfg) rng) := by
    rw [hval]
    exact fyLoop_perm rng (cfg.Length.toNat - 1) cfg.Length.toNat _
  refine ⟨?_, hperm, ?_⟩
  · intro cs hcs hne
    have hmemf : classAlphabet cfg cs ∈ buildIndividualCharsets cfg := by
      unfold buildIndividualCharsets
      refine List.mem_filter.mpr ⟨List.mem_map_of_mem _ hcs, ?_⟩
      simpa using List.length_pos.mpr hne
    obtain ⟨i, hi, hgi⟩ := List.getElem_of_mem hmemf
    have hne' : (buildIndividualCharsets cfg)[i] ≠ [] := by rw [hgi]; exact hne
    have hx := prefill_getElem (buildIndividualCharsets cfg) rng i hi hne'
    have hip : i < (prefill (buildIndividualCharsets cfg) rng).length := by
      rwa [prefill_length]
    refine ⟨(prefill (buildIndividualCharsets cfg) rng).getD i 'A', ?_, by rwa [hgi] at hx⟩
    apply hperm.mem_iff.mpr
    apply List.mem_append_left
    rw [List.getD_eq_getElem _ _ hip]
    exact List.getElem_mem _
  · intro i hi
    have hne' : (buildIndividualCharsets cfg)[i] ≠ [] :=
      buildIndividualCharsets_ne_nil cfg _ (List.getElem_mem hi)
    rw [List.getD_eq_getElem _ _ hi]
    exact prefill_getElem (buildIndividualCharsets cfg) rng i hi hne'

/-- C2 witness: a concrete generation (length 5, all four classes, no
exclusions) at which the amended statement is instantiated. -/
theorem C2_class_coverage_witness :
    ∃ s, randomGenerate
        ⟨5, [.Lowercase, .Uppercase, .Numbers, .Symbols], []⟩ (fun i => i) = .ok s ∧
      ((∀ cs ∈ (⟨5, [CharSet.Lowercase, .Uppercase, .Numbers, .Symbols], []⟩ : Config).CharSets,
        classAlphabet ⟨5, [.Lowercase, .Uppercase, .Numbers, .Symbols], []⟩ cs ≠ [] →
          ∃ c ∈ s, c ∈ classAlphabet ⟨5, [.Lowercase, .Uppercase, .Numbers, .Symbols], []⟩ cs) ∧
      s.Perm (prefill (buildIndividualCharsets ⟨5, [.Lowercase, .Uppercase, .Numbers, .Symbols], []⟩) (fun i => i) ++
        filler (5 : Int).toNat
          (buildIndividualCharsets ⟨5, [.Lowercase, .Uppercase, .Numbers, .Symbols], []⟩).length
          (buildCharset ⟨5, [.Lowercase, .Uppercase, .Numbers, .Symbols], []⟩) (fun i => i)) ∧
      (∀ i, i < (buildIndividualCharsets ⟨5, [.Lowercase, .Uppercase, .Numbers, .Symbols], []⟩).length →
        (prefill (buildIndividualCharsets ⟨5, [.Lowercase, .Uppercase, .Numbers, .Symbols], []⟩)
            (fun i => i)).getD i 'A'
          ∈ (buildIndividualCharsets ⟨5, [.Lowercase, .Uppercase, .Numbers, .Symbols], []⟩).getD i [])) :=
  ⟨_, rfl, C2_class_coverage _ _ _ rfl⟩

/-- C2 counterexample: excluding the whole lowercase alphabet while selecting
all four classes still succeeds (length 4 ≥ 3 surviving classes), yet the
output contains no lowercase character — the claim fails for exclusion
strings that empty a selected class. -/
theorem C2_counterexample :
    randomGenerate ⟨4, [.Lowercase, .Uppercase, .Numbers, .Symbols],
        "abcdefghijklmnopqrstuvwxyz".toList⟩ (fun _ => 0) = .ok ['0', '!', 'A', 'A'] ∧
    CharSet.Lowercase ∈ [CharSet.Lowercase, .Uppercase, .Numbers, .Symbols] ∧
    ∀ c ∈ (['0', '!', 'A', 'A'] : List Char), c ∉ charSetChars CharSet.Lowercase := by
  exact ⟨rfl, by decide, by decide⟩

theorem gcmOpen_gcmSeal (key nonce data : List Nat) :
    gcmOpen key nonce (gcmSeal key nonce data) = some data := by
  have htk : (key ++ nonce ++ data).take key.length = key := by
    rw [List.append_assoc]
    exact List.take_left key (nonce ++ data)
  have hdk : (key ++ nonce ++ data).drop key.length = nonce ++ data := by
    rw [List.append_assoc]
    exact List.drop_left key (nonce ++ data)
  have hdd : (key ++ nonce ++ data).drop (key.length + nonce.length) = data := by
    have hl : (key ++ nonce).length = key.length + nonce.length := List.length_append _ _
    rw [← hl]
    exact List.drop_left (key ++ nonce) data
  show (if key.length = key.length ∧ nonce.length = nonce.length ∧
      (key ++ nonce ++ data).take key.length = key ∧
      ((key ++ nonce ++ data).drop key.length).take nonce.length = nonce ∧
      ((key ++ nonce ++ data).drop (key.length + nonce.length)).length = data.length then
    some ((key ++ nonce ++ data).drop (key.length + nonce.length))
  else none) = some data
  rw [if_pos ⟨rfl, rfl, htk, by rw [hdk]; exact List.take_left nonce data, by rw [hdd]⟩, hdd]

theorem gcmOpen_wrong_key (key key' nonce data : List Nat) (hne : key' ≠ key) :
    gcmOpen key' nonce (gcmSeal key nonce data) = none := by
  show (if key.length = key'.length ∧ nonce.length = nonce.length ∧
      (key ++ nonce ++ data).take key.length = key' ∧
      ((key ++ nonce ++ data).drop key.length).take nonce.length = nonce ∧
      ((key ++ nonce ++ data).drop (key.length + nonce.length)).length = data.length then
    some ((key ++ nonce ++ data).drop (key.length + nonce.length))
  else none) = none
  rw [if_neg]
  intro hcond
  apply hne
  have htk : (key ++ nonce ++ data).take key.length = key := by
    rw [List.append_assoc]
    exact List.take_left key (nonce ++ data)
  rw [← hcond.2.2.1, htk]

theorem pbkdf2Key_injective (p p' : String) (salt : List Nat) (hne : p' ≠ p) :
    pbkdf2Key p' salt ≠ pbkdf2Key p salt := by
  intro he
  unfold pbkdf2Key at he
  have h2 : p'.toList.map Char.toNat ++ salt = p.toList.map Char.toNat ++ salt :=
    List.tail_eq_of_cons_eq he
  have h3 : p'.toList.map Char.toNat = p.toList.map Char.toNat :=
    List.append_cancel_right h2
  have hinj : Function.Injective Char.toNat := by
    intro a b hab
    have := congrArg Char.ofNat hab
    rwa [Char.ofNat_toNat, Char.ofNat_toNat] at this
  have h4 : p'.toList = p.toList := List.map_injective_iff.mpr hinj h3
  exact hne (String.ext h4)

/-- C1: decrypting an encrypted blob with the same passphrase returns exactly
the original payload; decrypting it with any other passphrase returns an
error, never corrupted plaintext.  `salt` and `nonce` are the fresh random
values `encrypt` drew (16 and 12 bytes). -/
theorem C1_encrypt_decrypt (h h' : HistoryManager) (salt nonce data : List Nat)
    (hsalt : salt.length = 16) (hnonce : nonce.length = 12) :
    h.decrypt (h.encrypt salt nonce data) = .ok data ∧
    (h'.passphrase ≠ h.passphrase →
      ∃ e, h'.decrypt (h.encrypt salt nonce data) = .error e) := by
  have hlen : (h.encrypt salt nonce data).length =
      16 + (12 + (gcmSeal (pbkdf2Key h.passphrase salt) nonce data).length) := by
    unfold HistoryManager.encrypt
    rw [List.length_append, List.length_append, hsalt, hnonce]
    omega
  have hnotshort : ¬ (h.encrypt salt nonce data).length < 16 + 12 := by omega
  have htake16 : (h.encrypt salt nonce data).take 16 = salt := by
    unfold HistoryManager.encrypt
    rw [List.append_assoc, ← hsalt]
    exact List.take_left salt _
  have hnonce12 : ((h.encrypt salt nonce data).drop 16).take 12 = nonce := by
    unfold HistoryManager.encrypt
    rw [List.append_assoc, ← hsalt, List.drop_left salt _, ← hnonce]
    exact List.take_left nonce _
  have hdrop28 : (h.encrypt salt nonce data).drop 28 =
      gcmSeal (pbkdf2Key h.passphrase salt) nonce data := by
    unfold HistoryManager.encrypt
    have h28 : (salt ++ nonce).length = 28 := by simp [hsalt, hnonce]
    rw [← h28]
    exact List.drop_left (salt ++ nonce) _
  constructor
  · unfold HistoryManager.decrypt
    rw [if_neg hnotshort, htake16, hnonce12, hdrop28, gcmOpen_gcmSeal]
  · intro hp
    refine ⟨"decryption failed", ?_⟩
    unfold HistoryManager.decrypt
    rw [if_neg hnotshort, htake16, hnonce12, hdrop28, gcmOpen_wrong_key]
    exact pbkdf2Key_injective h.passphrase h'.passphrase salt hp

/-- C1 witness: a concrete payload, matching and mismatching passphrases. -/
theorem C1_encrypt_decrypt_witness :
    (HistoryManager.mk true "alpha" 100).decrypt
        ((HistoryManager.mk true "alpha" 100).encrypt (List.replicate 16 7)
          (List.replicate 12 9) [1, 2, 3]) = .ok [1, 2, 3] ∧
    ((HistoryManager.mk true "beta" 100).passphrase ≠
        (HistoryManager.mk true "alpha" 100).passphrase →
      ∃ e, (HistoryManager.mk true "beta" 100).decrypt
        ((HistoryManager.mk true "alpha" 100).encrypt (List.replicate 16 7)
          (List.replicate 12 9) [1, 2, 3]) = .error e) :=
  C1_encrypt_decrypt (HistoryManager.mk true "alpha" 100)
    (HistoryManager.mk true "beta" 100) (List.replicate 16 7) (List.replicate 12 9)
    [1, 2, 3] (by simp) (by simp)

theorem LoadHistory_ok (h : HistoryManager) (hen : h.enabled = true)
    (hp : h.passphrase ≠ "") (file : Option (List HistoryEntry)) :
    h.LoadHistory file = .ok (file.getD []) := by
  unfold HistoryManager.LoadHistory
  rw [if_neg (by simp [hen]), if_neg hp]
  cases file <;> rfl

/-- When enabled with a passphrase, `AddEntry` always succeeds and the new
file content is the normalized entry prepended to the loaded list, truncated
to the cap. -/
theorem AddEntry_ok (h : HistoryManager) (hen : h.enabled = true) (hp : h.passphrase ≠ "")
    (file : Option (List HistoryEntry)) (entry : HistoryEntry) (freshId : String)
    (now : Nat) :
    h.AddEntry file entry freshId now =
      .ok (some ((normalizeEntry entry freshId now :: file.getD []).take
        h.maxEntries.toNat)) := by
  unfold HistoryManager.AddEntry
  rw [if_neg (by simp [hen]), if_neg hp, LoadHistory_ok h hen hp file]
  show (if ((normalizeEntry entry freshId now :: file.getD []).length : Int) > h.maxEntries
    then Except.ok (some ((normalizeEntry entry freshId now :: file.getD []).take
      h.maxEntries.toNat))
    else Except.ok (some (normalizeEntry entry freshId now :: file.getD []))) = _
  by_cases hgt : (((normalizeEntry entry freshId now :: file.getD []).length : Int) >
      h.maxEntries)
  · rw [if_pos hgt]
  · rw [if_neg hgt, List.take_of_length_le]
    simp only [List.length_cons] at hgt ⊢
    omega

theorem addAll_closed (h : HistoryManager) (hen : h.enabled = true) (hp : h.passphrase ≠ "") :
    ∀ (adds : List (HistoryEntry × String × Nat)) (R : List HistoryEntry),
      h.addAll (some (R.take h.maxEntries.toNat)) adds =
        .ok (some ((((adds.map fun a => normalizeEntry a.1 a.2.1 a.2.2).reverse) ++ R).take
          h.maxEntries.toNat)) := by
  intro adds
  induction adds with
  | nil => intro R; simp [HistoryManager.addAll]
  | cons a rest ih =>
    intro R
    have hcollapse : ((normalizeEntry a.1 a.2.1 a.2.2 :: R.take h.maxEntries.toNat).take
        h.maxEntries.toNat)
        = ((normalizeEntry a.1 a.2.1 a.2.2 :: R).take h.maxEntries.toNat) := by
      cases hN : h.maxEntries.toNat with
      | zero => simp
      | succ m => simp [List.take_succ_cons, List.take_take, Nat.min_eq_left (Nat.le_succ m)]
    unfold HistoryManager.addAll
    rw [AddEntry_ok h hen hp _ a.1 a.2.1 a.2.2]
    show h.addAll (some ((normalizeEntry a.1 a.2.1 a.2.2 ::
      (some (R.take h.maxEntries.toNat)).getD []).take h.maxEntries.toNat)) rest = _
    rw [Option.getD_some, hcollapse, ih (normalizeEntry a.1 a.2.1 a.2.2 :: R)]
    simp [List.reverse_cons, List.append_assoc]

/-- C3: with cap `N ≥ 1`, after `N+1` or more `AddEntry` calls starting from
an absent file, `LoadHistory` returns exactly `N` entries newest-first (the
last-added entry at the head, older entries beyond the cap discarded); and
after any single successful `AddEntry` from any state the stored list never
exceeds `N` entries. -/
theorem C3_history_cap (h : HistoryManager) (adds : List (HistoryEntry × String × Nat))
    (hen : h.enabled = true) (hp : h.passphrase ≠ "") (hN : 1 ≤ h.maxEntries)
    (hlen : h.maxEntries + 1 ≤ (adds.length : Int)) :
    (∃ l : List HistoryEntry,
      h.addAll none adds = .ok (some l) ∧
      h.LoadHistory (some l) = .ok l ∧
      l = ((adds.map fun a => normalizeEntry a.1 a.2.1 a.2.2).reverse).take
        h.maxEntries.toNat ∧
      (l.length : Int) = h.maxEntries ∧
      l.head? = (adds.map fun a => normalizeEntry a.1 a.2.1 a.2.2).getLast?) ∧
    (∀ (file : Option (List HistoryEntry)) (entry : HistoryEntry) (freshId : String)
      (now : Nat) (next : List HistoryEntry),
      h.AddEntry file entry freshId now = .ok (some next) →
        (next.length : Int) ≤ h.maxEntries) := by
  constructor
  · cases adds with
    | nil => simp at hlen; omega
    | cons a rest =>
      refine ⟨(((a :: rest).map fun x => normalizeEntry x.1 x.2.1 x.2.2).reverse).take
        h.maxEntries.toNat, ?_, ?_, rfl, ?_, ?_⟩
      · unfold HistoryManager.addAll
        rw [AddEntry_ok h hen hp none a.1 a.2.1 a.2.2]
        show h.addAll (some ((normalizeEntry a.1 a.2.1 a.2.2 ::
          (none : Option (List HistoryEntry)).getD []).take h.maxEntries.toNat)) rest = _
        simp only [Option.getD_none]
        rw [addAll_closed h hen hp rest [normalizeEntry a.1 a.2.1 a.2.2]]
        simp [List.reverse_cons]
      · exact LoadHistory_ok h hen hp _
      · rw [List.length_take, List.length_reverse, List.length_map]
        simp only [List.length_cons] at hlen ⊢
        omega
      · have hlr : ∃ m, h.maxEntries.toNat = m + 1 := ⟨h.maxEntries.toNat - 1, by omega⟩
        obtain ⟨m, hm⟩ := hlr
        rw [hm, ← List.head?_reverse]
        cases hrv : ((a :: rest).map fun x => normalizeEntry x.1 x.2.1 x.2.2).reverse with
        | nil => rfl
        | cons r rs => rw [List.take_succ_cons]; rfl
  · intro file entry freshId now next hs
    rw [AddEntry_ok h hen hp file entry freshId now] at hs
    simp only [Except.ok.injEq, Option.some.injEq] at hs
    rw [← hs, List.length_take]
    have := Nat.min_le_left h.maxEntries.toNat
      ((normalizeEntry entry freshId now :: file.getD []).length)
    omega

/-- C3 witness: cap 1, two `AddEntry` calls; the file keeps exactly the last
entry. -/
theorem C3_history_cap_witness :
    (∃ l : List HistoryEntry,
      (HistoryManager.mk true "pw" 1).addAll none
        [(⟨"", "p1", 8, "random", "s1", 0, ""⟩, "id1", 5),
         (⟨"e2", "p2", 6, "pin", "s2", 7, "d2"⟩, "id2", 6)] = .ok (some l) ∧
      (HistoryManager.mk true "pw" 1).LoadHistory (some l) = .ok l ∧
      l = (([(⟨"", "p1", 8, "random", "s1", 0, ""⟩, ("id1", 5)),
            (⟨"e2", "p2", 6, "pin", "s2", 7, "d2"⟩, ("id2", 6))].map
          fun a => normalizeEntry a.1 a.2.1 a.2.2).reverse).take
        (HistoryManager.mk true "pw" 1).maxEntries.toNat ∧
      (l.length : Int) = (HistoryManager.mk true "pw" 1).maxEntries ∧
      l.head? = ([(⟨"", "p1", 8, "random", "s1", 0, ""⟩, ("id1", 5)),
            (⟨"e2", "p2", 6, "pin", "s2", 7, "d2"⟩, ("id2", 6))].map
          fun a => normalizeEntry a.1 a.2.1 a.2.2).getLast?) ∧
    (∀ (file : Option (List HistoryEntry)) (entry : HistoryEntry) (freshId : String)
      (now : Nat) (next : List HistoryEntry),
      (HistoryManager.mk true "pw" 1).AddEntry file entry freshId now = .ok (some next) →
        (next.length : Int) ≤ (HistoryManager.mk true "pw" 1).maxEntries) :=
  C3_history_cap (HistoryManager.mk true "pw" 1)
    [(⟨"", "p1", 8, "random", "s1", 0, ""⟩, ("id1", 5)),
     (⟨"e2", "p2", 6, "pin", "s2", 7, "d2"⟩, ("id2", 6))]
    rfl (by decide) (by decide) (by decide)

/-- C7: history enabled but no passphrase set — `AddEntry` fails with a
distinct error and returns no new file content, so nothing is ever written
(in particular nothing is stored unencrypted). -/
theorem C7_fail_closed_without_passphrase (h : HistoryManager)
    (file : Option (List HistoryEntry)) (entry : HistoryEntry) (freshId : String)
    (now : Nat) (hen : h.enabled = true) (hp : h.passphrase = "") :
    h.AddEntry file entry freshId now = .error "history passphrase not set" ∧
    ∀ file', h.AddEntry file entry freshId now ≠ .ok file' := by
  have he : h.AddEntry file entry freshId now = .error "history passphrase not set" := by
    unfold HistoryManager.AddEntry
    rw [if_neg (by simp [hen]), if_pos hp]
  refine ⟨he, fun file' hcontra => ?_⟩
  rw [he] at hcontra
  exact Except.noConfusion hcontra

/-- C7 witness: a concrete enabled manager with the empty passphrase. -/
theorem C7_fail_closed_without_passphrase_witness :
    (HistoryManager.mk true "" 100).AddEntry none ⟨"", "p", 8, "random", "s", 0, ""⟩
        "id" 5 = .error "history passphrase not set" ∧
    ∀ file', (HistoryManager.mk true "" 100).AddEntry none
        ⟨"", "p", 8, "random", "s", 0, ""⟩ "id" 5 ≠ .ok file' :=
  C7_fail_closed_without_passphrase (HistoryManager.mk true "" 100) none
    ⟨"", "p", 8, "random", "s", 0, ""⟩ "id" 5 rfl rfl

/-- C9: a successful `AddEntry` stores the normalized entry at the head of
the list: an empty caller ID is replaced by the freshly generated one and a
zero creation time by the current time (both therefore non-empty/non-zero),
while non-empty ID, non-zero CreatedAt and the other fields are stored
unchanged. -/
theorem C9_addEntry_normalizes (h : HistoryManager) (file : Option (List HistoryEntry))
    (entry : HistoryEntry) (freshId : String) (now : Nat) (l : List HistoryEntry)
    (hen : h.enabled = true) (hp : h.passphrase ≠ "") (hN : 1 ≤ h.maxEntries)
    (hid : freshId ≠ "") (hnow : now ≠ 0)
    (hs : h.AddEntry file entry freshId now = .ok (some l)) :
    l.head? = some (normalizeEntry entry freshId now) ∧
    (normalizeEntry entry freshId now).ID ≠ "" ∧
    (normalizeEntry entry freshId now).CreatedAt ≠ 0 ∧
    (normalizeEntry entry freshId now).ID = (if entry.ID = "" then freshId else entry.ID) ∧
    (normalizeEntry entry freshId now).CreatedAt
      = (if entry.CreatedAt = 0 then now else entry.CreatedAt) ∧
    (normalizeEntry entry freshId now).Password = entry.Password := by
  rw [AddEntry_ok h hen hp file entry freshId now] at hs
  simp only [Except.ok.injEq, Option.some.injEq] at hs
  refine ⟨?_, ?_, ?_, rfl, rfl, rfl⟩
  · rw [← hs]
    obtain ⟨m, hm⟩ : ∃ m, h.maxEntries.toNat = m + 1 := ⟨h.maxEntries.toNat - 1, by omega⟩
    rw [hm, List.take_succ_cons]
    rfl
  · unfold normalizeEntry
    by_cases hi : entry.ID = "" <;> simp [hi, hid]
  · unfold normalizeEntry
    by_cases hc : entry.CreatedAt = 0 <;> simp [hc, hnow]

/-- C9 witness: an entry with empty ID and zero timestamp gets the generated
ID and the clock value; the password is stored unchanged. -/
theorem C9_addEntry_normalizes_witness :
    ([normalizeEntry ⟨"", "p", 8, "random", "s", 0, ""⟩ "gid" 42] :
        List HistoryEntry).head?
      = some (normalizeEntry ⟨"", "p", 8, "random", "s", 0, ""⟩ "gid" 42) ∧
    (normalizeEntry ⟨"", "p", 8, "random", "s", 0, ""⟩ "gid" 42).ID ≠ "" ∧
    (normalizeEntry ⟨"", "p", 8, "random", "s", 0, ""⟩ "gid" 42).CreatedAt ≠ 0 ∧
    (normalizeEntry ⟨"", "p", 8, "random", "s", 0, ""⟩ "gid" 42).ID
      = (if (HistoryEntry.mk "" "p" 8 "random" "s" 0 "").ID = "" then "gid"
        else (HistoryEntry.mk "" "p" 8 "random" "s" 0 "").ID) ∧
    (normalizeEntry ⟨"", "p", 8, "random", "s", 0, ""⟩ "gid" 42).CreatedAt
      = (if (HistoryEntry.mk "" "p" 8 "random" "s" 0 "").CreatedAt = 0 then 42
        else (HistoryEntry.mk "" "p" 8 "random" "s" 0 "").CreatedAt) ∧
    (normalizeEntry ⟨"", "p", 8, "random", "s", 0, ""⟩ "gid" 42).Password
      = (HistoryEntry.mk "" "p" 8 "random" "s" 0 "").Password :=
  C9_addEntry_normalizes (HistoryManager.mk true "pw" 1) none
    ⟨"", "p", 8, "random", "s", 0, ""⟩ "gid" 42
    [normalizeEntry ⟨"", "p", 8, "random", "s", 0, ""⟩ "gid" 42]
    rfl (by decide) (by decide) (by decide) (by decide) rfl

theorem logBase2_natCast_nonneg (n : Nat) : 0 ≤ logBase2 (n : ℝ) := by
  unfold logBase2
  by_cases h : (n : ℝ) ≤ 0
  · rw [if_pos h]
  · rw [if_neg h]
    push_neg at h
    apply Real.logb_nonneg (by norm_num)
    have h1 : 1 ≤ n := by exact_mod_cast h
    exact_mod_cast h1

theorem logBase2_natCast_le_logb7 (n : Nat) (hn : n ≤ 7) :
    logBase2 (n : ℝ) ≤ Real.logb 2 7 := by
  unfold logBase2
  by_cases h : (n : ℝ) ≤ 0
  · rw [if_pos h]
    exact Real.logb_nonneg (by norm_num) (by norm_num)
  · rw [if_neg h]
    push_neg at h
    exact (Real.logb_le_logb (by norm_num) h (by norm_num)).mpr (by exact_mod_cast hn)

theorem seven_logb_seven_lt_20 : (7 : ℝ) * Real.logb 2 7 < 20 := by
  have h1 : Real.logb 2 ((7 : ℝ) ^ (7 : ℕ)) = ((7 : ℕ) : ℝ) * Real.logb 2 7 :=
    Real.logb_pow 2 7 7
  have h2 : Real.logb 2 ((7 : ℝ) ^ (7 : ℕ)) < 20 := by
    rw [Real.logb_lt_iff_lt_rpow (by norm_num) (by norm_num)]
    have h3 : (2 : ℝ) ^ (20 : ℝ) = (2 : ℝ) ^ (20 : ℕ) := by
      rw [show ((20 : ℝ)) = ((20 : ℕ) : ℝ) by norm_num, Real.rpow_natCast]
    rw [h3]
    norm_num
  have h4 : ((7 : ℕ) : ℝ) = (7 : ℝ) := by norm_num
  rw [h4] at h1
  rw [← h1]
  exact h2

theorem repetitionPenalty_nonneg (pw : List Char) : 0 ≤ calculateRepetitionPenalty pw := by
  unfold calculateRepetitionPenalty
  split_ifs with h1 h2
  · norm_num
  · norm_num
  · push_neg at h2
    linarith

theorem repetitionPenalty_le_one (pw : List Char) : calculateRepetitionPenalty pw ≤ 1 := by
  unfold calculateRepetitionPenalty
  split_ifs with h1 h2
  · norm_num
  · norm_num
  · have ht : (0 : ℝ) ≤ ((totalRepeats pw : ℝ) / (utf8Len pw : ℝ)) * 0.5 := by positivity
    linarith

theorem patternPenalty_nonneg (pw : List Char) : 0 ≤ calculatePatternPenalty pw := by
  unfold calculatePatternPenalty
  split_ifs <;> norm_num

theorem patternPenalty_le_one (pw : List Char) : calculatePatternPenalty pw ≤ 1 := by
  unfold calculatePatternPenalty
  split_ifs <;> norm_num

theorem length_le_utf8Len (s : List Char) : s.length ≤ utf8Len s := by
  induction s with
  | nil => simp [utf8Len]
  | cons c t ih =>
    have hc : 1 ≤ charBytes c := by
      unfold charBytes
      split_ifs <;> norm_num
    simp only [utf8Len, List.map_cons, List.sum_cons, List.length_cons] at ih ⊢
    omega

theorem charsetSize_le_utf8Len (pw : List Char) :
    calculateCharsetSize pw ≤ utf8Len pw := by
  have hd : pw.dedup.length ≤ pw.length := (List.dedup_sublist pw).length_le
  have hl := length_le_utf8Len pw
  simp only [calculateCharsetSize]
  set size := (if hasLowercase pw then 26 else 0) + (if hasUppercase pw then 26 else 0) +
    (if hasNumbers pw then 10 else 0) + (if hasSymbols pw then 32 else 0) with hsize
  split_ifs with h
  · omega
  · omega

theorem calculateEntropy_nonneg (pw : List Char) : 0 ≤ calculateEntropy pw := by
  unfold calculateEntropy
  have hlog := logBase2_natCast_nonneg (calculateCharsetSize pw)
  split_ifs with h1 h2
  · norm_num
  · have : (0 : ℝ) ≤ (utf8Len pw : ℝ) * logBase2 (calculateCharsetSize pw : ℝ) :=
      mul_nonneg (by positivity) hlog
    linarith
  · exact mul_nonneg (mul_nonneg (mul_nonneg (by positivity) hlog)
      (repetitionPenalty_nonneg pw)) (patternPenalty_nonneg pw)

/-- A password of byte length at most 7 always scores below 20 bits: the
charset size is capped by the distinct-rune count, hence by 7, so the base
entropy is at most `7·log2 7 < 20`, and the penalties only shrink it. -/
theorem calculateEntropy_lt_20 (pw : List Char) (hlen : utf8Len pw ≤ 7) :
    calculateEntropy pw < 20 := by
  unfold calculateEntropy
  have hcs : calculateCharsetSize pw ≤ 7 := le_trans (charsetSize_le_utf8Len pw) hlen
  have hlog := logBase2_natCast_nonneg (calculateCharsetSize pw)
  have hbase : (utf8Len pw : ℝ) * logBase2 (calculateCharsetSize pw : ℝ) ≤
      (7 : ℝ) * Real.logb 2 7 := by
    apply mul_le_mul (by exact_mod_cast hlen) (logBase2_natCast_le_logb7 _ hcs) hlog
      (by norm_num)
  have hb0 : (0 : ℝ) ≤ (utf8Len pw : ℝ) * logBase2 (calculateCharsetSize pw : ℝ) :=
    mul_nonneg (by positivity) hlog
  have h20 := seven_logb_seven_lt_20
  split_ifs with h1 h2
  · norm_num
  · nlinarith
  · have hrp0 := repetitionPenalty_nonneg pw
    have hrp1 := repetitionPenalty_le_one pw
    have hpp0 := patternPenalty_nonneg pw
    have hpp1 := patternPenalty_le_one pw
    have e1 : (utf8Len pw : ℝ) * logBase2 (calculateCharsetSize pw : ℝ) *
        calculateRepetitionPenalty pw ≤
        (utf8Len pw : ℝ) * logBase2 (calculateCharsetSize pw : ℝ) :=
      mul_le_of_le_one_right hb0 hrp1
    have e0 : (0 : ℝ) ≤ (utf8Len pw : ℝ) * logBase2 (calculateCharsetSize pw : ℝ) *
        calculateRepetitionPenalty pw := mul_nonneg hb0 hrp0
    have e2 : (utf8Len pw : ℝ) * logBase2 (calculateCharsetSize pw : ℝ) *
        calculateRepetitionPenalty pw * calculatePatternPenalty pw ≤
        (utf8Len pw : ℝ) * logBase2 (calculateCharsetSize pw : ℝ) *
          calculateRepetitionPenalty pw := mul_le_of_le_one_right e0 hpp1
    linarith

/-- C4: `Analyze` is total (it is a Lean function, defined on every rune
sequence including the empty string and non-ASCII content), its entropy is
never negative, and on the empty string it reports entropy 0 and the weakest
tier. -/
theorem C4_analyze_total :
    (∀ password : List Char, 0 ≤ (Analyze password).Entropy) ∧
    (Analyze []).Entropy = 0 ∧ (Analyze []).Level = SecurityLevel.VeryWeak := by
  have he : calculateEntropy [] = 0 := by
    simp [calculateEntropy, utf8Len]
  refine ⟨fun pw => calculateEntropy_nonneg pw, he, ?_⟩
  show calculateSecurityLevel (calculateEntropy []) ((utf8Len [] : Nat) : Int) [] =
    SecurityLevel.VeryWeak
  rw [he]
  unfold calculateSecurityLevel
  rw [if_neg (by decide)]
  have ht : thresholdTier 0 = SecurityLevel.VeryWeak := by
    unfold thresholdTier
    rw [if_neg (by norm_num), if_neg (by norm_num), if_neg (by norm_num),
      if_neg (by norm_num), if_neg (by norm_num)]
  rw [ht]
  rw [if_neg]
  intro hc
  have := hc.2
  simp [SecurityLevel.toInt] at this

/-- C5: the strength level `Analyze` assigns is exactly the spec's rule —
entropy thresholded into the six tiers, downgraded one tier (saturating at
the weakest) when the byte length is below 8, and forced to the weakest tier
on a compromised-list match.  (The code only decrements when the tier is
above `Weak`, but a password shorter than 8 bytes always scores below 20
bits and so lands on the weakest tier anyway, where the saturating downgrade
also stays put.) -/
theorem C5_level_assignment :
    ∀ password : List Char, (Analyze password).Level = specLevel password := by
  intro pw
  show calculateSecurityLevel (calculateEntropy pw) ((utf8Len pw : Nat) : Int) pw =
    specLevel pw
  unfold calculateSecurityLevel specLevel
  by_cases hcom : isCommonPassword pw
  · rw [if_pos hcom, if_pos hcom]
  · rw [if_neg hcom, if_neg hcom]
    by_cases hlen : ((utf8Len pw : Nat) : Int) < 8
    · rw [if_pos hlen]
      have hl7 : utf8Len pw ≤ 7 := by omega
      have he : calculateEntropy pw < 20 := calculateEntropy_lt_20 pw hl7
      have ht : thresholdTier (calculateEntropy pw) = SecurityLevel.VeryWeak := by
        unfold thresholdTier
        rw [if_neg (by linarith), if_neg (by linarith), if_neg (by linarith),
          if_neg (by linarith), if_neg (by linarith)]
      rw [ht, if_neg]
      · rfl
      · intro hc
        have := hc.2
        simp [SecurityLevel.toInt] at this
    · rw [if_neg hlen, if_neg]
      intro hc
      exact hlen hc.1

end Passman
